import Mathlib

/-!
Verification of the fine-tuning tutorial script (05_Training_lab_student.py).

Texts are embedded as lists of characters, so that the Python string slice
text[n:] is List.drop n.  Token-id sequences are lists of naturals.  The
external model and tokenizer are abstract records of functions; where a claim
depends on behaviour of the external libraries (tokenizer, trainer,
checkpointing) that behaviour is modelled from the spec and marked as such in
the doc comment.
-/

/-- An opaque model handle as used by the inference helper: `generate` maps
input token ids and a total-length bound max_length to output token ids. -/
structure Model where
  generate : List Nat → Nat → List Nat

/-- A tokenizer handle: `encode` maps text and a truncation bound max_length to
token ids; `decode` maps token ids back to text with special tokens skipped
(the script calls batch_decode on a batch of one and takes element 0). -/
structure Tokenizer where
  encode : List Char → Nat → List Nat
  decode : List Nat → List Char

/-- Embedding of the `inference` function of the script: encode the text
truncated to max_input_tokens, generate with max_length = max_output_tokens,
decode, and strip the first len(text) characters of the decoded output. -/
def inference (text : List Char) (model : Model) (tokenizer : Tokenizer)
    (max_input_tokens : Nat) (max_output_tokens : Nat) : List Char :=
  let input_ids := tokenizer.encode text max_input_tokens
  let generated_tokens_with_prompt := model.generate input_ids max_output_tokens
  let generated_text_with_prompt := tokenizer.decode generated_tokens_with_prompt
  generated_text_with_prompt.drop text.length

/-- The compute device chosen by the script. -/
inductive Device where
  | cuda
  | cpu
deriving DecidableEq

/-- Embedding of the device-selection branch of the script: `device_count` is
torch.cuda.device_count(); if it is positive the device is cuda, else cpu. -/
def select_device (device_count : Nat) : Device :=
  if device_count > 0 then Device.cuda else Device.cpu

/-- A demonstration tokenizer used only to instantiate theorems at concrete
inputs: each character is encoded as its code point, truncated to max_length;
decoding maps code points back to characters. -/
def char_id_tokenizer : Tokenizer :=
  ⟨fun text max_length => (text.map Char.toNat).take max_length,
   fun ids => ids.map Char.ofNat⟩

/-- A demonstration model that echoes its prompt unchanged. -/
def echo_model : Model :=
  ⟨fun ids _ => ids⟩

/-- C1: the value returned by `inference` is exactly the decoded generated
output with its first len(text) characters dropped, and whenever the decoded
output is no longer than the prompt text the returned value is the empty
string (no error). -/
theorem inference_returns_suffix (text : List Char) (model : Model)
    (tokenizer : Tokenizer) (max_input_tokens max_output_tokens : Nat) :
    inference text model tokenizer max_input_tokens max_output_tokens
      = (tokenizer.decode (model.generate (tokenizer.encode text max_input_tokens)
          max_output_tokens)).drop text.length
    ∧ ((tokenizer.decode (model.generate (tokenizer.encode text max_input_tokens)
          max_output_tokens)).length ≤ text.length
        → inference text model tokenizer max_input_tokens max_output_tokens = []) := by
  refine ⟨rfl, fun h => ?_⟩
  simpa [inference] using List.drop_eq_nil_of_le h

/-- Witness for C1 at a concrete input: the echo model on the prompt "a"
decodes back to "a" itself, whose length is not larger than the prompt, so the
returned completion is empty. -/
theorem inference_returns_suffix_witness :
    inference ['a'] echo_model char_id_tokenizer 1000 100 = [] :=
  (inference_returns_suffix ['a'] echo_model char_id_tokenizer 1000 100).2 (by decide)

/-- C3: whenever the reported accelerator count is zero the chosen device is
cpu, whenever it is positive the chosen device is cuda, and these are the only
two outcomes. -/
theorem select_device_cases (device_count : Nat) :
    (device_count = 0 → select_device device_count = Device.cpu)
    ∧ (device_count > 0 → select_device device_count = Device.cuda)
    ∧ (select_device device_count = Device.cpu
        ∨ select_device device_count = Device.cuda) := by
  refine ⟨fun h => ?_, fun h => ?_, ?_⟩
  · simp [select_device, h]
  · simp [select_device, h]
  · by_cases h : device_count > 0
    · right
      simp [select_device, h]
    · left
      simp [select_device, h]

/-- Witness for C3 at concrete accelerator counts 0 and 4. -/
theorem select_device_cases_witness :
    select_device 0 = Device.cpu ∧ select_device 4 = Device.cuda :=
  ⟨(select_device_cases 0).1 rfl, (select_device_cases 4).2.1 (by decide)⟩

/-- A demonstration model whose continuation repeats the prompt: generation
returns the prompt followed by the prompt again, truncated to max_length. -/
def repeat_prompt_model : Model :=
  ⟨fun ids max_length => (ids ++ ids).take max_length⟩

/-- C2 counterexample: on the prompt "ab" (tokenization well below the 1000
bound), a model whose continuation repeats the prompt makes `inference` return
a completion that does have the prompt as a prefix, so the claim fails as
stated. -/
theorem completion_prompt_prefix_counterexample :
    (char_id_tokenizer.encode ['a', 'b'] 1000).length < 1000
    ∧ ['a', 'b'] <+:
        inference ['a', 'b'] repeat_prompt_model char_id_tokenizer 1000 100 := by
  decide

/-- C2 amended: the completion is the decoded output with the first len(text)
characters removed; hence whenever the decoded generated output is the prompt
text followed by a continuation that does not itself begin with the prompt
text, the returned completion does not have the prompt text as a prefix. -/
theorem completion_no_prompt_prefix (text cont : List Char) (model : Model)
    (tokenizer : Tokenizer) (max_input_tokens max_output_tokens : Nat)
    (hfit : (tokenizer.encode text max_input_tokens).length < max_input_tokens)
    (hdec : tokenizer.decode (model.generate (tokenizer.encode text max_input_tokens)
        max_output_tokens) = text ++ cont)
    (hcont : ¬ text <+: cont) :
    ¬ text <+: inference text model tokenizer max_input_tokens max_output_tokens := by
  have h : inference text model tokenizer max_input_tokens max_output_tokens = cont := by
    simp [inference, hdec, List.drop_left]
  rw [h]
  exact hcont

/-- Witness for the amended C2 at a concrete input: the echo model on the
prompt "a" yields the empty completion, which does not have "a" as a prefix. -/
theorem completion_no_prompt_prefix_witness :
    ¬ ['a'] <+: inference ['a'] echo_model char_id_tokenizer 1000 100 :=
  completion_no_prompt_prefix ['a'] [] echo_model char_id_tokenizer 1000 100
    (by decide) (by decide) (by decide)

/-- Python membership test on the prefix side: does `hay` start with `needle`. -/
def starts_with (needle hay : List Char) : Bool :=
  match needle, hay with
  | [], _ => true
  | _ :: _, [] => false
  | c :: n, d :: h => c == d && starts_with n h

/-- The Python substring test `needle in hay`: some suffix of `hay` starts
with `needle`. -/
def py_contains (needle hay : List Char) : Bool :=
  match hay with
  | [] => starts_with needle []
  | _ :: t => starts_with needle hay || py_contains needle t

/-- The literal moderation phrase scanned for by the script. -/
def moderation_phrase : List Char :=
  "keep the discussion relevant to Lamini".toList

/-- A question/answer record of the dataset. -/
structure QAExample where
  question : List Char
  answer : List Char
deriving DecidableEq

/-- Placeholder record used only as the default of List.getD; the scan loop
never reads it because every index it uses is in bounds. -/
def default_example : QAExample :=
  ⟨[], []⟩

/-- Embedding of the moderation count loop of the script: for i in
range(len(train_dataset)), increment count when the phrase occurs in the
answer of example i. -/
def moderation_scan (train_dataset : List QAExample) : Nat :=
  (List.range train_dataset.length).foldl
    (fun count i =>
      if py_contains moderation_phrase (train_dataset.getD i default_example).answer
      then count + 1 else count) 0

theorem map_getD_range {α : Type} (l : List α) (d : α) :
    (List.range l.length).map (fun i => l.getD i d) = l := by
  induction l with
  | nil => simp
  | cons a t ih =>
    rw [List.length_cons, List.range_succ_eq_map, List.map_cons, List.map_map]
    simp only [Function.comp, List.getD_cons_zero, List.getD_cons_succ]
    exact congrArg (a :: ·) ih

theorem foldl_count_if {α : Type} (p : α → Bool) (l : List α) (c : Nat) :
    l.foldl (fun acc a => if p a then acc + 1 else acc) c = c + l.countP p := by
  induction l generalizing c with
  | nil => simp
  | cons a t ih =>
    rw [List.foldl_cons, ih, List.countP_cons]
    by_cases hp : p a = true <;> simp [hp] <;> omega

theorem count_loop_eq_countP (p : QAExample → Bool) (l : List QAExample) :
    (List.range l.length).foldl
      (fun count i => if p (l.getD i default_example) then count + 1 else count) 0
      = l.countP p := by
  have h1 := List.foldl_map (fun i => l.getD i default_example)
    (fun count ex => if p ex then count + 1 else count) (List.range l.length) 0
  have h2 : (List.range l.length).map (fun i => l.getD i default_example) = l :=
    map_getD_range l default_example
  rw [h2] at h1
  rw [← h1, foldl_count_if, Nat.zero_add]

/-- C4: the count printed by the moderation scan loop equals the number of
examples of the train split whose answer contains the literal phrase. -/
theorem moderation_scan_counts (train_dataset : List QAExample) :
    moderation_scan train_dataset
      = train_dataset.countP
          (fun ex => py_contains moderation_phrase ex.answer) :=
  count_loop_eq_countP (fun ex => py_contains moderation_phrase ex.answer) train_dataset

/-- The pad/end-of-sequence token id of the modelled tokenizer (the script
aliases pad_token to eos_token). -/
def eos_token_id : Nat := 0

/-- Modelled from the spec (Tokenizer Adapter): each ordinary character maps to
a token id; ids of ordinary characters are shifted by one so that they never
collide with the special end-of-sequence id. -/
def char_to_id (c : Char) : Nat := c.toNat + 1

/-- Modelled from the spec (Tokenizer Adapter): inverse mapping from ordinary
token ids back to characters. -/
def id_to_char (n : Nat) : Char := Char.ofNat (n - 1)

/-- A token id is special when it is the end-of-sequence/pad id. -/
def is_special_token (n : Nat) : Bool := n == eos_token_id

/-- Modelled from the spec (Tokenizer Adapter): encoding truncates to a maximum
input length and raises no error. -/
def spec_encode (text : List Char) (max_length : Nat) : List Nat :=
  (text.map char_to_id).take max_length

/-- Modelled from the spec (Tokenizer Adapter): decoding strips special tokens
(skip_special_tokens=True) and maps the remaining ids back to characters. -/
def spec_decode (ids : List Nat) : List Char :=
  (ids.filter (fun n => !is_special_token n)).map id_to_char

/-- The modelled tokenizer as a Tokenizer record usable by `inference`. -/
def spec_tokenizer : Tokenizer :=
  ⟨spec_encode, spec_decode⟩

theorem spec_decode_spec_encode (text : List Char) (max_length : Nat) :
    spec_decode (spec_encode text max_length) = text.take max_length := by
  rw [spec_encode, spec_decode, ← List.map_take]
  rw [List.filter_eq_self.mpr]
  · rw [List.map_map]
    have h : ∀ c ∈ text.take max_length, (id_to_char ∘ char_to_id) c = c := by
      intro c _
      simp [id_to_char, char_to_id, Function.comp, Char.ofNat_toNat]
    rw [List.map_congr_left h]
    simp
  · intro n hn
    rcases List.mem_map.mp hn with ⟨c, _, rfl⟩
    simp [char_to_id, is_special_token, eos_token_id]

/-- C6: encoding then decoding ordinary ASCII text that fits within the
configured maximum returns the text unchanged, and encoding any longer text
silently truncates to exactly the maximum (encoding is total, no error). -/
theorem tokenizer_roundtrip (text : List Char) (max_length : Nat)
    (hascii : ∀ c ∈ text, c.toNat < 128) (hfit : text.length ≤ max_length) :
    spec_decode (spec_encode text max_length) = text
    ∧ ∀ long : List Char, max_length < long.length →
        (spec_encode long max_length).length = max_length := by
  constructor
  · rw [spec_decode_spec_encode, List.take_of_length_le hfit]
  · intro long hlong
    rw [spec_encode, List.length_take, List.length_map]
    omega

/-- Witness for C6 at concrete inputs: "hi" round-trips through the tokenizer
with maximum 5, and a 6-character text encodes to exactly 5 tokens. -/
theorem tokenizer_roundtrip_witness :
    spec_decode (spec_encode ['h', 'i'] 5) = ['h', 'i']
    ∧ (spec_encode ['a', 'a', 'a', 'a', 'a', 'a'] 5).length = 5 :=
  ⟨(tokenizer_roundtrip ['h', 'i'] 5 (by decide) (by decide)).1,
   (tokenizer_roundtrip ['h', 'i'] 5 (by decide) (by decide)).2
     ['a', 'a', 'a', 'a', 'a', 'a'] (by decide)⟩

/-- Modelled from the spec (Model handle / Checkpoint): a parameter snapshot of
a model; the concrete carrier is a list of integer weights. -/
structure Params where
  weights : List Int
deriving DecidableEq

/-- Modelled from the spec (Checkpoint): the directory tree holding saved
checkpoints, a finite map from directory path to parameter snapshot where the
most recent save wins. -/
abbrev CheckpointStore := List (String × Params)

/-- Modelled from the spec (Training Driver): save_model(path) persists the
current parameters to the given path. -/
def save_model (store : CheckpointStore) (save_dir : String) (p : Params) :
    CheckpointStore :=
  (save_dir, p) :: store

/-- Modelled from the spec (Model Loader): from_pretrained with
local_files_only reads the snapshot stored at the directory, if any. -/
def from_pretrained (store : CheckpointStore) (dir : String) : Option Params :=
  (store.find? (fun e => e.1 == dir)).map (fun e => e.2)

/-- Modelled from the spec: under deterministic (non-sampling) generation the
output tokens are a fixed function of the parameter snapshot and the input,
capped at max_length total tokens. -/
def deterministic_generate (p : Params) : Model :=
  ⟨fun ids max_length => (ids ++ p.weights.map Int.natAbs).take max_length⟩

/-- C5: saving a parameter snapshot to a directory and reloading from that same
directory yields exactly the saved snapshot, so deterministic inference through
the reloaded handle agrees with the pre-save handle on every input. -/
theorem checkpoint_roundtrip (store : CheckpointStore) (save_dir : String)
    (p : Params) (text : List Char) (tokenizer : Tokenizer)
    (max_input_tokens max_output_tokens : Nat) :
    from_pretrained (save_model store save_dir p) save_dir = some p
    ∧ (from_pretrained (save_model store save_dir p) save_dir).map
        (fun q => inference text (deterministic_generate q) tokenizer
          max_input_tokens max_output_tokens)
      = some (inference text (deterministic_generate p) tokenizer
          max_input_tokens max_output_tokens) := by
  have h : from_pretrained (save_model store save_dir p) save_dir = some p := by
    rw [from_pretrained, save_model, List.find?_cons_of_pos _ (by simp)]
    rfl
  exact ⟨h, by rw [h]; rfl⟩

/-- Modelled from the spec (Inference Helper): generation is capped at
max_length total tokens including the prompt, so a prompt already at or past
the cap generates nothing beyond itself. -/
def CapsTotalLength (model : Model) : Prop :=
  ∀ ids max_length, max_length ≤ ids.length → model.generate ids max_length = ids

/-- C10: `inference` passes max_output_tokens as the total-length bound of
generation, so for any prompt whose truncated encoding reaches
max_output_tokens tokens, generation adds nothing beyond the prompt and the
returned completion is empty (with the script defaults, any prompt of 100 or
more tokens against the 1000-token input bound). -/
theorem prompt_at_cap_empty_completion (model : Model) (text : List Char)
    (max_input_tokens max_output_tokens : Nat)
    (hcap : CapsTotalLength model)
    (hlong : max_output_tokens ≤ (spec_encode text max_input_tokens).length) :
    model.generate (spec_encode text max_input_tokens) max_output_tokens
        = spec_encode text max_input_tokens
    ∧ inference text model spec_tokenizer max_input_tokens max_output_tokens = [] := by
  have hgen := hcap _ _ hlong
  refine ⟨hgen, ?_⟩
  have h1 : inference text model spec_tokenizer max_input_tokens max_output_tokens
      = (spec_decode (spec_encode text max_input_tokens)).drop text.length := by
    rw [inference]
    show (spec_decode (model.generate (spec_encode text max_input_tokens)
      max_output_tokens)).drop text.length = _
    rw [hgen]
  rw [h1, spec_decode_spec_encode]
  exact List.drop_eq_nil_of_le (by rw [List.length_take]; omega)

/-- A demonstration model obeying the total-length cap: below the cap it pads
with end-of-sequence tokens, at or past the cap it returns the prompt. -/
def hard_cap_model : Model :=
  ⟨fun ids max_length =>
    if max_length ≤ ids.length then ids
    else ids ++ List.replicate (max_length - ids.length) eos_token_id⟩

theorem hard_cap_model_caps : CapsTotalLength hard_cap_model := by
  intro ids max_length h
  simp [hard_cap_model, h]

/-- Witness for C10 at a concrete input: a 100-character prompt against the
script defaults (1000 input tokens, 100 output tokens) yields the empty
completion. -/
theorem prompt_at_cap_empty_completion_witness :
    inference (List.replicate 100 'a') hard_cap_model spec_tokenizer 1000 100 = [] :=
  (prompt_at_cap_empty_completion hard_cap_model (List.replicate 100 'a') 1000 100
    hard_cap_model_caps (by decide)).2

/-- Modelled from the spec (Training Driver): the subset of the TrainingArguments
record that determines the number of optimization steps performed by train().
Fields in order: num_train_epochs, max_steps. -/
structure TrainingArgumentsModel where
  num_train_epochs : Nat
  max_steps : Int

/-- The arguments the script configures: num_train_epochs = 1, max_steps = 3. -/
def script_training_args : TrainingArgumentsModel :=
  ⟨1, 3⟩

/-- Modelled from the spec (Training Driver): the step cap overrides the epoch
count when it is non-negative; otherwise one pass per epoch over the train
split. -/
def configured_total_steps (args : TrainingArgumentsModel) (train_size : Nat) : Nat :=
  if 0 ≤ args.max_steps then args.max_steps.toNat
  else args.num_train_epochs * train_size

/-- Modelled from the spec (Training Driver): a single optimization step
updates the parameters in place as a function of the current batch. -/
def optimization_step (p : Params) (batch : QAExample) : Params :=
  ⟨p.weights.map (fun w => w + Int.ofNat batch.answer.length)⟩

/-- Modelled from the spec (Training Driver): run the given number of
optimization steps cycling through the train split, returning the final
parameters together with the number of steps actually performed. -/
def run_steps (train_split : List QAExample) : Nat → Params → Params × Nat
  | 0, p => (p, 0)
  | n + 1, p =>
      let batch := train_split.getD (n % train_split.length) default_example
      let r := run_steps train_split n p
      (optimization_step r.1 batch, r.2 + 1)

/-- Modelled from the spec (Training Driver): train() performs the configured
number of optimization steps over the train split. -/
def trainer_train (args : TrainingArgumentsModel) (train_split : List QAExample)
    (p : Params) : Params × Nat :=
  run_steps train_split (configured_total_steps args train_split.length) p

theorem run_steps_count (train_split : List QAExample) (n : Nat) (p : Params) :
    (run_steps train_split n p).2 = n := by
  induction n with
  | zero => rfl
  | succ k ih => simp [run_steps, ih]

/-- C7: with max_steps = 3 configured alongside num_train_epochs = 1, train()
on any non-empty train split performs exactly 3 optimization steps (the step
cap overrides the epoch count). -/
theorem max_steps_overrides_epochs (train_split : List QAExample) (p : Params)
    (hne : train_split ≠ []) :
    script_training_args.max_steps = 3
    ∧ script_training_args.num_train_epochs = 1
    ∧ (trainer_train script_training_args train_split p).2 = 3 := by
  refine ⟨rfl, rfl, ?_⟩
  rw [trainer_train]
  have h : configured_total_steps script_training_args train_split.length = 3 := by
    simp [configured_total_steps, script_training_args]
  rw [h, run_steps_count]

/-- Witness for C7 at a concrete input: a one-example train split. -/
theorem max_steps_overrides_epochs_witness :
    (trainer_train script_training_args [default_example] ⟨[0]⟩).2 = 3 :=
  (max_steps_overrides_epochs [default_example] ⟨[0]⟩ (by decide)).2.2

/-- Modelled from the spec (Model handle): the set of live model handles of the
script, a finite map from handle identity to parameter snapshot. -/
abbrev Heap := List (Nat × Params)

/-- A handle identity strictly larger than every identity in the heap. -/
def fresh_handle (heap : Heap) : Nat :=
  heap.foldr (fun e m => max (e.1 + 1) m) 0

/-- Read the parameters currently held by a handle. -/
def lookup_handle (heap : Heap) (h : Nat) : Option Params :=
  (heap.find? (fun e => e.1 == h)).map (fun e => e.2)

/-- Modelled from the spec (Model handle): loading a checkpoint into a new
variable allocates an independent fresh handle and leaves all prior handles
untouched. -/
def load_into_new_handle (heap : Heap) (p : Params) : Nat × Heap :=
  (fresh_handle heap, (fresh_handle heap, p) :: heap)

/-- Overwrite the parameters of one handle in place. -/
def heap_write (heap : Heap) (h : Nat) (p : Params) : Heap :=
  heap.map (fun e => if e.1 == h then (e.1, p) else e)

/-- Modelled from the spec: the operations of the script that touch model
handles: loading a checkpoint into a new variable, one Training Driver
optimization step on a target handle, running inference on a handle, and
saving a handle to a checkpoint directory. -/
inductive ScriptOp where
  | load_checkpoint (p : Params)
  | train_step (target : Nat) (batch : QAExample)
  | run_inference (h : Nat) (text : List Char)
  | save_checkpoint (h : Nat) (dir : String)

/-- Modelled from the spec: effect of each script operation on the handle heap
and the checkpoint store. -/
def apply_op (heap : Heap) (store : CheckpointStore) : ScriptOp → Heap × CheckpointStore
  | ScriptOp.load_checkpoint p => ((load_into_new_handle heap p).2, store)
  | ScriptOp.train_step target batch =>
      match lookup_handle heap target with
      | some p => (heap_write heap target (optimization_step p batch), store)
      | none => (heap, store)
  | ScriptOp.run_inference _ _ => (heap, store)
  | ScriptOp.save_checkpoint h dir =>
      match lookup_handle heap h with
      | some p => (heap, save_model store dir p)
      | none => (heap, store)

theorem id_lt_fresh_handle (heap : Heap) :
    ∀ e ∈ heap, e.1 < fresh_handle heap := by
  induction heap with
  | nil => intro e he; cases he
  | cons a t ih =>
    intro e he
    rcases List.mem_cons.mp he with rfl | ht
    · exact Nat.lt_of_lt_of_le (Nat.lt_succ_self _) (le_max_left _ _)
    · exact Nat.lt_of_lt_of_le (ih e ht) (le_max_right _ _)

theorem lookup_handle_lt_fresh (heap : Heap) (h : Nat) (q : Params)
    (hl : lookup_handle heap h = some q) : h < fresh_handle heap := by
  rw [lookup_handle] at hl
  rcases Option.map_eq_some'.mp hl with ⟨e, hfind, _⟩
  have hmem := List.mem_of_find?_eq_some hfind
  have hp := List.find?_some hfind
  have : e.1 = h := by simpa using hp
  rw [← this]
  exact id_lt_fresh_handle heap e hmem

/-- C8: the handle allocated for a newly loaded checkpoint is fresh (it holds
no parameters before the load), and every script operation other than a
Training Driver optimization step leaves the parameters of every existing
handle unchanged. -/
theorem handle_isolation (heap : Heap) (store : CheckpointStore) :
    lookup_handle heap (fresh_handle heap) = none
    ∧ ∀ op : ScriptOp,
        (∀ target batch, op ≠ ScriptOp.train_step target batch) →
        ∀ h q, lookup_handle heap h = some q →
          lookup_handle (apply_op heap store op).1 h = some q := by
  constructor
  · rw [lookup_handle, List.find?_eq_none.mpr, Option.map_none']
    intro e he
    have := id_lt_fresh_handle heap e he
    simp only [beq_iff_eq]
    omega
  · intro op hop h q hl
    cases op with
    | load_checkpoint p =>
      have hfresh : fresh_handle heap ≠ h := by
        have := lookup_handle_lt_fresh heap h q hl
        omega
      show lookup_handle ((fresh_handle heap, p) :: heap) h = some q
      rw [lookup_handle, List.find?_cons_of_neg _ (by simpa using hfresh)]
      exact hl
    | train_step target batch => exact absurd rfl (hop target batch)
    | run_inference hh text => exact hl
    | save_checkpoint hh dir =>
      cases hsv : lookup_handle heap hh <;> simp [apply_op, hsv] <;> exact hl

/-- Witness for C8 at a concrete input: loading a fresh checkpoint next to an
existing handle 0 leaves the parameters of handle 0 unchanged. -/
theorem handle_isolation_witness :
    lookup_handle (apply_op [(0, ⟨[1]⟩)] [] (ScriptOp.load_checkpoint ⟨[2]⟩)).1 0
      = some ⟨[1]⟩ :=
  (handle_isolation [(0, ⟨[1]⟩)] []).2 (ScriptOp.load_checkpoint ⟨[2]⟩)
    (fun t b hcontra => by cases hcontra) 0 ⟨[1]⟩ (by decide)

/-- One element of the outputs list of a hosted-API evaluation result. -/
structure EvalOutput where
  output : List Char
deriving DecidableEq

/-- One element of the eval_results list returned by the hosted API evaluate()
call: the evaluated input and its paired outputs (trained first, base second). -/
structure EvalResult where
  input : List Char
  outputs : List EvalOutput
deriving DecidableEq

/-- One row of the tabulated report built by the script. -/
structure ReportRow where
  question : List Char
  trained_model : List Char
  base_model : List Char
deriving DecidableEq

/-- Placeholder output used only as the default of List.getD in statements. -/
def default_eval_output : EvalOutput :=
  ⟨[]⟩

/-- Embedding of the body of the report loop of the script: the row holds the
input as question, outputs[0].output as the trained-model column and
outputs[1].output as the base-model column; the Python indexing raises when an
element carries fewer than two outputs, embedded here as returning none. -/
def build_row (e : EvalResult) : Option ReportRow :=
  match e.outputs[0]?, e.outputs[1]? with
  | some a, some b => some ⟨e.input, a.output, b.output⟩
  | _, _ => none

/-- Embedding of the report loop of the script: build one row per element of
eval_results, in order. -/
def build_report (eval_results : List EvalResult) : Option (List ReportRow) :=
  eval_results.mapM build_row

theorem build_row_of_two_outputs (e : EvalResult) (h2 : 2 ≤ e.outputs.length) :
    build_row e
      = some ⟨e.input, (e.outputs.getD 0 default_eval_output).output,
          (e.outputs.getD 1 default_eval_output).output⟩ := by
  rcases e with ⟨inp, outs⟩
  match outs, h2 with
  | a :: b :: rest, _ => simp [build_row, List.getD]

/-- C9: whenever every element of eval_results carries at least two outputs,
the report is built with one row per element, whose question is that element
input, whose trained-model column is outputs[0].output and whose base-model
column is outputs[1].output. -/
theorem eval_report_construction (eval_results : List EvalResult)
    (h : ∀ e ∈ eval_results, 2 ≤ e.outputs.length) :
    build_report eval_results
      = some (eval_results.map (fun e =>
          ⟨e.input, (e.outputs.getD 0 default_eval_output).output,
            (e.outputs.getD 1 default_eval_output).output⟩)) := by
  induction eval_results with
  | nil => rfl
  | cons e rest ih =>
    have he : 2 ≤ e.outputs.length := h e (List.mem_cons_self e rest)
    have hrest : ∀ x ∈ rest, 2 ≤ x.outputs.length :=
      fun x hx => h x (List.mem_cons_of_mem e hx)
    rw [build_report, List.mapM_cons]
    rw [build_report] at ih
    rw [ih hrest, build_row_of_two_outputs e he]
    rfl

/-- Witness for C9 at a concrete input: a single evaluation result with a
trained output "t" and a base output "b" tabulates to the expected row. -/
theorem eval_report_construction_witness :
    build_report [⟨['q'], [⟨['t']⟩, ⟨['b']⟩]⟩]
      = some [⟨['q'], ['t'], ['b']⟩] :=
  eval_report_construction [⟨['q'], [⟨['t']⟩, ⟨['b']⟩]⟩] (by decide)
